import Mathlib

/-!
Verification of the encrypted file vault backend (src/backend/server.js and
src/frontend/script.js).

Bytes are modelled as natural numbers (with explicit bounds where relevant)
and buffers as lists of naturals.  The Node crypto primitives (scryptSync and
the aes-256-gcm cipher) are external library capabilities, not repository
code; following section 4.1 and section 6 of the specification they are
modelled abstractly as an authenticated stream cipher: a keystream generator
XOR-ed over the data plus a tag function over the ciphertext, both
parameterised over key and nonce.  Everything else (the blob framing, the
bounds-checked parser, the metadata decoding, the localStorage behaviour of
the frontend) is transcribed directly from the source.
-/

/-- Decidable equality for Except results, used to evaluate concrete runs. -/
instance instDecEqExcept {e a : Type} [DecidableEq e] [DecidableEq a] :
    DecidableEq (Except e a) := fun x y =>
  match x, y with
  | .ok u, .ok v =>
    if h : u = v then isTrue (by rw [h]) else isFalse (fun hh => h (Except.ok.inj hh))
  | .error u, .error v =>
    if h : u = v then isTrue (by rw [h]) else isFalse (fun hh => h (Except.error.inj hh))
  | .ok _, .error _ => isFalse (fun hh => Except.noConfusion hh)
  | .error _, .ok _ => isFalse (fun hh => Except.noConfusion hh)

/-- Model of Buffer.subarray(off, off + n): take n bytes starting at off,
clamping at the end of the buffer exactly as the JavaScript method does. -/
def sub (l : List Nat) (off n : Nat) : List Nat := (l.drop off).take n

/-- Transcribes readUInt32LE (server.js lines 46-48): read a 4-byte
little-endian unsigned integer at the given offset. -/
def readUInt32LE (l : List Nat) (off : Nat) : Nat :=
  l.getD off 0 + 256 * l.getD (off + 1) 0 + 65536 * l.getD (off + 2) 0 +
    16777216 * l.getD (off + 3) 0

/-- Transcribes writeUInt32LE (server.js lines 41-45): the 4-byte
little-endian encoding of an unsigned 32-bit integer. -/
def writeUInt32LE (n : Nat) : List Nat :=
  [n % 256, n / 256 % 256, n / 65536 % 256, n / 16777216 % 256]

/-- Modelled from the spec: the words of section 3, a length written as a
4-byte little-endian unsigned integer.  Kept separate from writeUInt32LE so
the implementation can be compared against the specified wire format. -/
def le4spec (n : Nat) : List Nat :=
  [n % 256, n / 256 % 256, n / 65536 % 256, n / 16777216 % 256]

/-! ## UTF-8 encoding and decoding

Buffer.from(string, "utf8") encodes a Unicode string as UTF-8, and
buf.toString("utf8") decodes with U+FFFD replacement for invalid sequences
(it never throws).  Strings are modelled as lists of Unicode scalar values.
The decoder below is the standard byte-at-a-time replacement decoder: a
state machine carrying the accumulated code point, the number of
continuation bytes still expected and the admissible range of the next
byte. -/

/-- Predicate for a valid Unicode scalar value (what a well-formed string
holds): at most 0x10FFFF and not a surrogate. -/
def ValidScalar (c : Nat) : Prop :=
  c ≤ 0x10FFFF ∧ ¬(0xD800 ≤ c ∧ c ≤ 0xDFFF)

instance (c : Nat) : Decidable (ValidScalar c) := by
  unfold ValidScalar; infer_instance

/-- UTF-8 encoding of one Unicode scalar value. -/
def utf8EncodeChar (c : Nat) : List Nat :=
  if c ≤ 0x7F then [c]
  else if c ≤ 0x7FF then [0xC0 + c / 64, 0x80 + c % 64]
  else if c ≤ 0xFFFF then [0xE0 + c / 4096, 0x80 + c / 64 % 64, 0x80 + c % 64]
  else [0xF0 + c / 262144, 0x80 + c / 4096 % 64, 0x80 + c / 64 % 64, 0x80 + c % 64]

/-- UTF-8 encoding of a string given as Unicode scalar values. -/
def utf8Encode (cps : List Nat) : List Nat := (cps.map utf8EncodeChar).flatten

/-- State of the replacement decoder: accumulated bits, continuation bytes
still needed, and the admissible range for the next byte. -/
structure U8St where
  acc : Nat
  needed : Nat
  lo : Nat
  hi : Nat
deriving DecidableEq

/-- Initial decoder state. -/
def idleU8 : U8St := ⟨0, 0, 0x80, 0xBF⟩

/-- Classify a byte in the initial state: emit it (ASCII), emit U+FFFD
(invalid lead byte), or start a multi-byte sequence with the appropriate
range restriction on the second byte. -/
def utf8Start (b : Nat) : List Nat × U8St :=
  if b ≤ 0x7F then ([b], idleU8)
  else if b ≤ 0xC1 then ([0xFFFD], idleU8)
  else if b ≤ 0xDF then ([], ⟨b - 0xC0, 1, 0x80, 0xBF⟩)
  else if b ≤ 0xEF then
    ([], ⟨b - 0xE0, 2, if b = 0xE0 then 0xA0 else 0x80, if b = 0xED then 0x9F else 0xBF⟩)
  else if b ≤ 0xF4 then
    ([], ⟨b - 0xF0, 3, if b = 0xF0 then 0x90 else 0x80, if b = 0xF4 then 0x8F else 0xBF⟩)
  else ([0xFFFD], idleU8)

/-- Consume a byte while continuation bytes are expected: accumulate it if
in range, otherwise emit U+FFFD and reprocess the byte as a lead byte. -/
def utf8Cont (st : U8St) (b : Nat) : List Nat × U8St :=
  if st.lo ≤ b ∧ b ≤ st.hi then
    if st.needed ≤ 1 then ([st.acc * 64 + (b - 0x80)], idleU8)
    else ([], ⟨st.acc * 64 + (b - 0x80), st.needed - 1, 0x80, 0xBF⟩)
  else
    (0xFFFD :: (utf8Start b).1, (utf8Start b).2)

/-- Replacement decoding loop. A truncated sequence at end of input yields
one U+FFFD. -/
def decodeAux : U8St → List Nat → List Nat
  | st, [] => if st.needed = 0 then [] else [0xFFFD]
  | st, b :: rest =>
    if st.needed = 0 then (utf8Start b).1 ++ decodeAux (utf8Start b).2 rest
    else (utf8Cont st b).1 ++ decodeAux (utf8Cont st b).2 rest

/-- Model of buf.toString("utf8"): total UTF-8 decoding with U+FFFD
replacement, never a failure. -/
def decodeUtf8Replace (l : List Nat) : List Nat := decodeAux idleU8 l

/-! ## Codec -/

/-- Abstract interface of the external aes-256-gcm capability (section 6 of
the spec treats the AEAD cipher as a capability, not one implementation):
a keystream generator producing n bytes from key and nonce, and a tag
function over key, nonce and ciphertext.  The two length laws are the only
structural facts used. -/
structure AEAD where
  keystream : List Nat → List Nat → Nat → List Nat
  tagOf : List Nat → List Nat → List Nat → List Nat
  keystream_length : ∀ key iv n, (keystream key iv n).length = n
  tagOf_length : ∀ key iv ct, (tagOf key iv ct).length = 16

/-- Result record of encryptBuffer (server.js line 32). -/
structure EncPayload where
  ciphertext : List Nat
  iv : List Nat
  authTag : List Nat
  salt : List Nat
deriving DecidableEq

/-- Failure of the external cipher: the single authentication error the
decipher throws when the tag does not verify. -/
inductive CryptoErr where
  | authFailed
deriving DecidableEq

/-- Byte-wise XOR of two buffers. -/
def xorBytes (a b : List Nat) : List Nat := List.zipWith (fun x y => x ^^^ y) a b

/-- Transcribes deriveKey (server.js lines 22-24): defer to the external
scrypt capability, passed in as a function. -/
def deriveKey (scrypt : List Nat → List Nat → List Nat)
    (secret salt : List Nat) : List Nat :=
  scrypt secret salt

/-- Transcribes encryptBuffer (server.js lines 25-33).  The two randomBytes
calls are modelled by passing the generated salt and iv as arguments; the
cipher run is the abstract keystream XOR plus tag. -/
def encryptBuffer (A : AEAD) (scrypt : List Nat → List Nat → List Nat)
    (buf secret salt iv : List Nat) : EncPayload :=
  let key := deriveKey scrypt secret salt
  let ciphertext := xorBytes buf (A.keystream key iv buf.length)
  { ciphertext := ciphertext, iv := iv, authTag := A.tagOf key iv ciphertext, salt := salt }

/-- Transcribes decryptBuffer (server.js lines 34-40): re-derive the key,
verify the tag, and on success XOR the keystream back; on mismatch the
decipher final call throws its single authentication error. -/
def decryptBuffer (A : AEAD) (scrypt : List Nat → List Nat → List Nat)
    (payload : EncPayload) (secret : List Nat) : Except CryptoErr (List Nat) :=
  let key := deriveKey scrypt secret payload.salt
  if A.tagOf key payload.iv payload.ciphertext = payload.authTag then
    Except.ok (xorBytes payload.ciphertext (A.keystream key payload.iv payload.ciphertext.length))
  else
    Except.error CryptoErr.authFailed

/-- Degenerate instantiation of the cipher interface (all-zero keystream and
tag), used only to evaluate the generic theorems on concrete inputs. -/
def zeroAEAD : AEAD where
  keystream := fun _ _ n => List.replicate n 0
  tagOf := fun _ _ _ => List.replicate 16 0
  keystream_length := by intro key iv n; simp
  tagOf_length := by intro key iv ct; simp

/-- Degenerate key-derivation function for concrete evaluation. -/
def zeroKdf : List Nat → List Nat → List Nat := fun _ _ => List.replicate 32 0

/-- XOR-ing twice with the same keystream gives back the original buffer. -/
theorem xorBytes_cancel : ∀ (p ks : List Nat), ks.length = p.length →
    xorBytes (xorBytes p ks) ks = p := by
  intro p
  induction p with
  | nil => intro ks h; simp [xorBytes]
  | cons a t ih =>
    intro ks h
    cases ks with
    | nil => simp at h
    | cons b kt =>
      simp only [xorBytes, List.zipWith_cons_cons]
      rw [Nat.xor_assoc, Nat.xor_self, Nat.xor_zero]
      have := ih kt (by simp only [List.length_cons] at h; omega)
      simp only [xorBytes] at this
      rw [this]

/-- Length of the ciphertext always equals the length of the plaintext. -/
theorem encryptBuffer_length (A : AEAD) (scrypt : List Nat → List Nat → List Nat)
    (buf secret salt iv : List Nat) :
    (encryptBuffer A scrypt buf secret salt iv).ciphertext.length = buf.length := by
  simp [encryptBuffer, xorBytes, List.length_zipWith, A.keystream_length]

/-- C1: for every byte sequence p and every non-empty passphrase, decrypting
the output of encryptBuffer with the same passphrase returns exactly p.
This holds for every instantiation of the external cipher and key-derivation
capabilities: the recomputed tag matches (same key, nonce, ciphertext) and
the keystream XOR is involutive. -/
theorem roundtrip_encrypt_decrypt (A : AEAD)
    (scrypt : List Nat → List Nat → List Nat) (p secret salt iv : List Nat)
    (hp : ∀ b ∈ p, b < 256) (hsecret : secret ≠ [])
    (hsalt : salt.length = 16) (hiv : iv.length = 12) :
    decryptBuffer A scrypt (encryptBuffer A scrypt p secret salt iv) secret =
      Except.ok p := by
  simp only [decryptBuffer, encryptBuffer, deriveKey]
  rw [if_pos trivial]
  have hks : (A.keystream (scrypt secret salt) iv p.length).length = p.length :=
    A.keystream_length _ _ _
  have hct : (xorBytes p (A.keystream (scrypt secret salt) iv p.length)).length = p.length := by
    simp [xorBytes, List.length_zipWith, hks]
  rw [hct]
  exact congrArg Except.ok (xorBytes_cancel p _ hks)

/-- C1 witness: the round trip evaluated on a concrete plaintext, passphrase
and randomness, under the degenerate cipher instantiation. -/
theorem roundtrip_encrypt_decrypt_witness :
    decryptBuffer zeroAEAD zeroKdf
      (encryptBuffer zeroAEAD zeroKdf [1, 2, 3] [7] (List.replicate 16 0) (List.replicate 12 0))
      [7] = Except.ok [1, 2, 3] :=
  roundtrip_encrypt_decrypt zeroAEAD zeroKdf [1, 2, 3] [7]
    (List.replicate 16 0) (List.replicate 12 0)
    (by decide) (by decide) (by simp) (by simp)

/-! ## Blob framing -/

/-- Byte content of the literal "application/octet-stream" used as the
default media type (server.js line 64). -/
def defaultMime : List Nat :=
  [97, 112, 112, 108, 105, 99, 97, 116, 105, 111, 110, 47,
   111, 99, 116, 101, 116, 45, 115, 116, 114, 101, 97, 109]

/-- Transcribes the serialisation in the encrypt route (server.js lines
63-77): encode the filename and the media type (falling back to
application/octet-stream when the media type is empty, line 64) as UTF-8,
build the header salt, iv, authTag, nameLen, name, mimeLen, mime, and append
the ciphertext. -/
def serializeBlob (enc : EncPayload) (originalname mimetype : List Nat) : List Nat :=
  let nameBuf := utf8Encode originalname
  let mimeBuf := utf8Encode (if mimetype = [] then defaultMime else mimetype)
  let header :=
    enc.salt ++ enc.iv ++ enc.authTag ++ writeUInt32LE nameBuf.length ++ nameBuf ++
      writeUInt32LE mimeBuf.length ++ mimeBuf
  header ++ enc.ciphertext

/-- Modelled from the spec: the words of section 3, the blob as the plain
concatenation salt, nonce, authTag, nameLen (4-byte little-endian), name
bytes, mimeLen (4-byte little-endian), mime bytes, ciphertext. -/
def blobLayoutSpec (salt nonce authTag nameB mimeB ct : List Nat) : List Nat :=
  salt ++ nonce ++ authTag ++ le4spec nameB.length ++ nameB ++
    le4spec mimeB.length ++ mimeB ++ ct

/-- Failure kinds of the decrypt route parser: the source throws
"truncated header" from the need checks and "missing ciphertext" when no
ciphertext bytes remain; oobRead is the extra outcome of the
explicitly-checked reader, marking a read past the end of the buffer. -/
inductive DErr where
  | truncated
  | missingCiphertext
  | oobRead
deriving DecidableEq

/-- Fields recovered by the decrypt route parser (server.js lines 108-132):
the three raw crypto fields plus the UTF-8 decoded name and mime and the
ciphertext remainder. -/
structure ParsedBlob where
  salt : List Nat
  iv : List Nat
  authTag : List Nat
  name : List Nat
  mime : List Nat
  ciphertext : List Nat
deriving DecidableEq

/-- Transcribes the bounds-checked parsing in the decrypt route (server.js
lines 101-133).  Each need check of the source is the corresponding length
guard here, with the running offset folded in; subarray is the clamping
slice sub; name and mime are decoded with the replacement decoder exactly
as toString("utf8") does. -/
def deserializeBlob (blob : List Nat) : Except DErr ParsedBlob :=
  if 0 + 16 > blob.length then .error .truncated else
  let salt := sub blob 0 16
  if 16 + 12 > blob.length then .error .truncated else
  let iv := sub blob 16 12
  if 28 + 16 > blob.length then .error .truncated else
  let authTag := sub blob 28 16
  if 44 + 4 > blob.length then .error .truncated else
  let nameLen := readUInt32LE blob 44
  if 48 + nameLen > blob.length then .error .truncated else
  let name := sub blob 48 nameLen
  if 48 + nameLen + 4 > blob.length then .error .truncated else
  let mimeLen := readUInt32LE blob (48 + nameLen)
  if 52 + nameLen + mimeLen > blob.length then .error .truncated else
  let mime := sub blob (52 + nameLen) mimeLen
  let ciphertext := blob.drop (52 + nameLen + mimeLen)
  if ciphertext.length = 0 then .error .missingCiphertext else
  .ok ⟨salt, iv, authTag, decodeUtf8Replace name, decodeUtf8Replace mime, ciphertext⟩

/-- Checked slice: the n bytes at offset off, or none if that region is not
entirely inside the buffer.  Unlike sub it reports an out-of-bounds read
instead of silently clamping. -/
def readBytesChk (l : List Nat) (off n : Nat) : Option (List Nat) :=
  if off + n ≤ l.length then some (sub l off n) else none

/-- Checked 32-bit read: the little-endian value at off, or none if any of
the four bytes lies outside the buffer. -/
def readU32Chk (l : List Nat) (off : Nat) : Option Nat :=
  if off + 4 ≤ l.length then some (readUInt32LE l off) else none

/-- Variant of deserializeBlob in which every byte access goes through a
checked read that reports oobRead when it would touch memory outside the
buffer.  Identical control flow to the source otherwise; used to prove that
the need guards make an out-of-bounds read impossible. -/
def deserializeChecked (blob : List Nat) : Except DErr ParsedBlob :=
  if 0 + 16 > blob.length then .error .truncated else
  match readBytesChk blob 0 16 with
  | none => .error .oobRead
  | some salt =>
  if 16 + 12 > blob.length then .error .truncated else
  match readBytesChk blob 16 12 with
  | none => .error .oobRead
  | some iv =>
  if 28 + 16 > blob.length then .error .truncated else
  match readBytesChk blob 28 16 with
  | none => .error .oobRead
  | some authTag =>
  if 44 + 4 > blob.length then .error .truncated else
  match readU32Chk blob 44 with
  | none => .error .oobRead
  | some nameLen =>
  if 48 + nameLen > blob.length then .error .truncated else
  match readBytesChk blob 48 nameLen with
  | none => .error .oobRead
  | some name =>
  if 48 + nameLen + 4 > blob.length then .error .truncated else
  match readU32Chk blob (48 + nameLen) with
  | none => .error .oobRead
  | some mimeLen =>
  if 52 + nameLen + mimeLen > blob.length then .error .truncated else
  match readBytesChk blob (52 + nameLen) mimeLen with
  | none => .error .oobRead
  | some mime =>
  let ciphertext := blob.drop (52 + nameLen + mimeLen)
  if ciphertext.length = 0 then .error .missingCiphertext else
  .ok ⟨salt, iv, authTag, decodeUtf8Replace name, decodeUtf8Replace mime, ciphertext⟩

/-! ## Frontend localStorage model (src/frontend/script.js) -/

/-- A localStorage snapshot: association list from keys to stored values.
localStorage persists across browser sessions. -/
def LocalStorage := List (String × String)

/-- Model of localStorage.setItem: replace any previous binding of the key. -/
def storeSet (store : List (String × String)) (k v : String) : List (String × String) :=
  (k, v) :: store.filter (fun p => p.1 ≠ k)

/-- Model of localStorage.getItem. -/
def storeGet (store : List (String × String)) (k : String) : Option String :=
  (store.find? (fun p => p.1 = k)).map (fun p => p.2)

/-- Transcribes the localStorage writes of the encrypt click handler on
success (script.js lines 149-150): the returned id and the passphrase the
user typed are both persisted. -/
def encryptSuccessStorage (store : List (String × String)) (id secret : String) :
    List (String × String) :=
  storeSet (storeSet store "lastCipherId" id) "lastSecret" secret

/-! ## Layout field extraction lemmas -/

/-- Reading inside the middle segment of a concatenation. -/
theorem getD_append_mid (pre x post : List Nat) (i : Nat) (h : i < x.length) :
    (pre ++ (x ++ post)).getD (pre.length + i) 0 = x.getD i 0 := by
  rw [List.getD_eq_getElem?_getD, List.getD_eq_getElem?_getD,
    List.getElem?_append_right (by omega : pre.length ≤ pre.length + i)]
  have he : pre.length + i - pre.length = i := by omega
  rw [he, List.getElem?_append_left h]

/-- Slicing out exactly the middle segment of a concatenation. -/
theorem sub_mid (pre mid post : List Nat) (off n : Nat)
    (hoff : off = pre.length) (hn : n = mid.length) :
    sub (pre ++ (mid ++ post)) off n = mid := by
  subst hoff; subst hn
  unfold sub
  rw [List.drop_left, List.take_left]

/-- Reading a 4-byte little-endian field embedded in a concatenation gives
back the encoded value. -/
theorem read32_mid (pre post : List Nat) (n off : Nat)
    (hoff : off = pre.length) (hn : n < 4294967296) :
    readUInt32LE (pre ++ (le4spec n ++ post)) off = n := by
  subst hoff
  unfold readUInt32LE
  have h0 := getD_append_mid pre (le4spec n) post 0 (by simp [le4spec])
  have h1 := getD_append_mid pre (le4spec n) post 1 (by simp [le4spec])
  have h2 := getD_append_mid pre (le4spec n) post 2 (by simp [le4spec])
  have h3 := getD_append_mid pre (le4spec n) post 3 (by simp [le4spec])
  simp only [Nat.add_zero] at h0
  rw [h0, h1, h2, h3]
  simp only [le4spec, List.getD_cons_zero, List.getD_cons_succ]
  omega

/-- Total length of a laid-out blob. -/
theorem layout_length (s iv t nb mb ct : List Nat)
    (h1 : s.length = 16) (h2 : iv.length = 12) (h3 : t.length = 16) :
    (blobLayoutSpec s iv t nb mb ct).length = 52 + nb.length + mb.length + ct.length := by
  simp [blobLayoutSpec, le4spec, List.length_append, h1, h2, h3]
  omega

/-- The first 16 bytes of a laid-out blob are the salt. -/
theorem layout_salt (s iv t nb mb ct : List Nat) (h1 : s.length = 16) :
    sub (blobLayoutSpec s iv t nb mb ct) 0 16 = s := by
  have hL : blobLayoutSpec s iv t nb mb ct =
      ([] : List Nat) ++ (s ++ (iv ++ (t ++ (le4spec nb.length ++
        (nb ++ (le4spec mb.length ++ (mb ++ ct))))))) := by
    simp [blobLayoutSpec, List.append_assoc]
  rw [hL]
  exact sub_mid [] s _ 0 16 (by simp) h1.symm

/-- Bytes 16-27 of a laid-out blob are the nonce. -/
theorem layout_iv (s iv t nb mb ct : List Nat)
    (h1 : s.length = 16) (h2 : iv.length = 12) :
    sub (blobLayoutSpec s iv t nb mb ct) 16 12 = iv := by
  have hL : blobLayoutSpec s iv t nb mb ct =
      s ++ (iv ++ (t ++ (le4spec nb.length ++
        (nb ++ (le4spec mb.length ++ (mb ++ ct)))))) := by
    simp [blobLayoutSpec, List.append_assoc]
  rw [hL]
  exact sub_mid s iv _ 16 12 h1.symm h2.symm

/-- Bytes 28-43 of a laid-out blob are the authentication tag. -/
theorem layout_tag (s iv t nb mb ct : List Nat)
    (h1 : s.length = 16) (h2 : iv.length = 12) (h3 : t.length = 16) :
    sub (blobLayoutSpec s iv t nb mb ct) 28 16 = t := by
  have hL : blobLayoutSpec s iv t nb mb ct =
      (s ++ iv) ++ (t ++ (le4spec nb.length ++
        (nb ++ (le4spec mb.length ++ (mb ++ ct))))) := by
    simp [blobLayoutSpec, List.append_assoc]
  rw [hL]
  exact sub_mid (s ++ iv) t _ 28 16 (by simp [h1, h2]) h3.symm

/-- Bytes 44-47 of a laid-out blob decode to the name length. -/
theorem layout_nameLen (s iv t nb mb ct : List Nat)
    (h1 : s.length = 16) (h2 : iv.length = 12) (h3 : t.length = 16)
    (hnb : nb.length < 4294967296) :
    readUInt32LE (blobLayoutSpec s iv t nb mb ct) 44 = nb.length := by
  have hL : blobLayoutSpec s iv t nb mb ct =
      ((s ++ iv) ++ t) ++ (le4spec nb.length ++
        (nb ++ (le4spec mb.length ++ (mb ++ ct)))) := by
    simp [blobLayoutSpec, List.append_assoc]
  rw [hL]
  exact read32_mid _ _ nb.length 44 (by simp [h1, h2, h3]) hnb

/-- The name-length bytes are followed by the raw name bytes. -/
theorem layout_name (s iv t nb mb ct : List Nat)
    (h1 : s.length = 16) (h2 : iv.length = 12) (h3 : t.length = 16) :
    sub (blobLayoutSpec s iv t nb mb ct) 48 nb.length = nb := by
  have hL : blobLayoutSpec s iv t nb mb ct =
      (((s ++ iv) ++ t) ++ le4spec nb.length) ++
        (nb ++ (le4spec mb.length ++ (mb ++ ct))) := by
    simp [blobLayoutSpec, List.append_assoc]
  rw [hL]
  exact sub_mid _ nb _ 48 nb.length (by simp [h1, h2, h3, le4spec]) rfl

/-- The 4 bytes after the name decode to the mime length. -/
theorem layout_mimeLen (s iv t nb mb ct : List Nat)
    (h1 : s.length = 16) (h2 : iv.length = 12) (h3 : t.length = 16)
    (hmb : mb.length < 4294967296) :
    readUInt32LE (blobLayoutSpec s iv t nb mb ct) (48 + nb.length) = mb.length := by
  have hL : blobLayoutSpec s iv t nb mb ct =
      ((((s ++ iv) ++ t) ++ le4spec nb.length) ++ nb) ++
        (le4spec mb.length ++ (mb ++ ct)) := by
    simp [blobLayoutSpec, List.append_assoc]
  rw [hL]
  refine read32_mid _ _ mb.length (48 + nb.length) ?_ hmb
  simp [h1, h2, h3, le4spec]
  omega

/-- The mime-length bytes are followed by the raw mime bytes. -/
theorem layout_mime (s iv t nb mb ct : List Nat)
    (h1 : s.length = 16) (h2 : iv.length = 12) (h3 : t.length = 16) :
    sub (blobLayoutSpec s iv t nb mb ct) (52 + nb.length) mb.length = mb := by
  have hL : blobLayoutSpec s iv t nb mb ct =
      (((((s ++ iv) ++ t) ++ le4spec nb.length) ++ nb) ++ le4spec mb.length) ++
        (mb ++ ct) := by
    simp [blobLayoutSpec, List.append_assoc]
  rw [hL]
  refine sub_mid _ mb _ (52 + nb.length) mb.length ?_ rfl
  simp [h1, h2, h3, le4spec]
  omega

/-- Everything after the mime bytes is the ciphertext. -/
theorem layout_ct (s iv t nb mb ct : List Nat)
    (h1 : s.length = 16) (h2 : iv.length = 12) (h3 : t.length = 16) :
    (blobLayoutSpec s iv t nb mb ct).drop (52 + nb.length + mb.length) = ct := by
  have hL : blobLayoutSpec s iv t nb mb ct =
      ((((((s ++ iv) ++ t) ++ le4spec nb.length) ++ nb) ++ le4spec mb.length) ++ mb) ++
        ct := by
    simp [blobLayoutSpec, List.append_assoc]
  have hlen : (((((((s ++ iv) ++ t) ++ le4spec nb.length) ++ nb) ++
      le4spec mb.length) ++ mb)).length = 52 + nb.length + mb.length := by
    simp [h1, h2, h3, le4spec, List.length_append]
    omega
  rw [hL, ← hlen, List.drop_left]

/-- The serialisation route produces exactly the specified wire layout. -/
theorem serialize_eq_layout (enc : EncPayload) (name mime : List Nat) :
    serializeBlob enc name mime =
      blobLayoutSpec enc.salt enc.iv enc.authTag (utf8Encode name)
        (utf8Encode (if mime = [] then defaultMime else mime)) enc.ciphertext := by
  simp [serializeBlob, blobLayoutSpec, writeUInt32LE, le4spec, List.append_assoc]

/-- Parsing a well-formed laid-out blob with non-empty ciphertext recovers
every field, the metadata through the replacement decoder. -/
theorem deserialize_layout (s iv t nb mb ct : List Nat)
    (h1 : s.length = 16) (h2 : iv.length = 12) (h3 : t.length = 16)
    (hnb : nb.length < 4294967296) (hmb : mb.length < 4294967296)
    (hct : ct ≠ []) :
    deserializeBlob (blobLayoutSpec s iv t nb mb ct) =
      Except.ok ⟨s, iv, t, decodeUtf8Replace nb, decodeUtf8Replace mb, ct⟩ := by
  have hlen := layout_length s iv t nb mb ct h1 h2 h3
  have hctpos : 0 < ct.length := List.length_pos.mpr hct
  simp only [deserializeBlob, hlen,
    layout_nameLen s iv t nb mb ct h1 h2 h3 hnb,
    layout_mimeLen s iv t nb mb ct h1 h2 h3 hmb,
    layout_ct s iv t nb mb ct h1 h2 h3,
    layout_salt s iv t nb mb ct h1,
    layout_iv s iv t nb mb ct h1 h2,
    layout_tag s iv t nb mb ct h1 h2 h3,
    layout_name s iv t nb mb ct h1 h2 h3,
    layout_mime s iv t nb mb ct h1 h2 h3]
  split_ifs <;> first | rfl | omega

/-- Parsing a well-formed laid-out blob with empty ciphertext fails with the
missing-ciphertext error. -/
theorem deserialize_layout_empty (s iv t nb mb : List Nat)
    (h1 : s.length = 16) (h2 : iv.length = 12) (h3 : t.length = 16)
    (hnb : nb.length < 4294967296) (hmb : mb.length < 4294967296) :
    deserializeBlob (blobLayoutSpec s iv t nb mb []) =
      Except.error DErr.missingCiphertext := by
  have hlen := layout_length s iv t nb mb [] h1 h2 h3
  simp only [deserializeBlob, hlen,
    layout_nameLen s iv t nb mb [] h1 h2 h3 hnb,
    layout_mimeLen s iv t nb mb [] h1 h2 h3 hmb,
    layout_ct s iv t nb mb [] h1 h2 h3,
    List.length_nil]
  split_ifs <;> first | rfl | omega

/-- Reading inside the kept region of a truncated buffer sees the original
bytes. -/
theorem getD_take (l : List Nat) (k i : Nat) (h : i < k) :
    (l.take k).getD i 0 = l.getD i 0 := by
  rw [List.getD_eq_getElem?_getD, List.getD_eq_getElem?_getD,
    List.getElem?_take_of_lt h]

/-- A 32-bit read wholly inside the kept region of a truncated buffer sees
the original value. -/
theorem read32_take (l : List Nat) (off k : Nat) (h : off + 4 ≤ k) :
    readUInt32LE (l.take k) off = readUInt32LE l off := by
  unfold readUInt32LE
  rw [getD_take _ _ _ (by omega), getD_take _ _ _ (by omega),
    getD_take _ _ _ (by omega), getD_take _ _ _ (by omega)]

set_option maxHeartbeats 1600000 in
/-- Truncating a valid blob anywhere inside the header and metadata region
fails with the truncated error; cutting exactly after the metadata leaves no
ciphertext and fails with the missing-ciphertext error. -/
theorem deserialize_take_le (s iv t nb mb ct : List Nat)
    (h1 : s.length = 16) (h2 : iv.length = 12) (h3 : t.length = 16)
    (hnb : nb.length < 4294967296) (hmb : mb.length < 4294967296)
    (hct : ct ≠ []) (k : Nat) (hk : k ≤ 52 + nb.length + mb.length) :
    deserializeBlob ((blobLayoutSpec s iv t nb mb ct).take k) =
      (if k < 52 + nb.length + mb.length then Except.error DErr.truncated
       else Except.error DErr.missingCiphertext) := by
  have hlen := layout_length s iv t nb mb ct h1 h2 h3
  have hctpos : 0 < ct.length := List.length_pos.mpr hct
  have htl : ((blobLayoutSpec s iv t nb mb ct).take k).length = k := by
    rw [List.length_take, hlen]
    exact min_eq_left (by omega)
  rcases Nat.lt_or_ge k 48 with hk48 | hk48
  · simp only [deserializeBlob, htl]
    split_ifs <;> first | rfl | omega
  · have hr44 : readUInt32LE ((blobLayoutSpec s iv t nb mb ct).take k) 44 =
        nb.length := by
      rw [read32_take _ _ _ (by omega : 44 + 4 ≤ k)]
      exact layout_nameLen s iv t nb mb ct h1 h2 h3 hnb
    rcases Nat.lt_or_ge k (52 + nb.length) with hk52 | hk52
    · simp only [deserializeBlob, htl, hr44]
      split_ifs <;> first | rfl | omega
    · have hrm : readUInt32LE ((blobLayoutSpec s iv t nb mb ct).take k)
          (48 + nb.length) = mb.length := by
        rw [read32_take _ _ _ (by omega : 48 + nb.length + 4 ≤ k)]
        exact layout_mimeLen s iv t nb mb ct h1 h2 h3 hmb
      have hdl : (((blobLayoutSpec s iv t nb mb ct).take k).drop
          (52 + nb.length + mb.length)).length = k - (52 + nb.length + mb.length) := by
        rw [List.length_drop, htl]
      simp only [deserializeBlob, htl, hr44, hrm]
      split_ifs <;> first | rfl | omega

/-! ## UTF-8 round trip -/

/-- Decoding the UTF-8 encoding of one valid scalar, followed by any
remaining input, emits exactly that scalar and continues in the initial
state. -/
theorem decodeAux_encodeChar (c : Nat) (hc : ValidScalar c) (rest : List Nat) :
    decodeAux idleU8 (utf8EncodeChar c ++ rest) = c :: decodeAux idleU8 rest := by
  obtain ⟨hmax, hsur⟩ := hc
  by_cases hA : c ≤ 0x7F
  · simp [utf8EncodeChar, hA, decodeAux, utf8Start, idleU8]
  · by_cases hB : c ≤ 0x7FF
    · have k1 : ¬(0xC0 + c / 64 ≤ 0x7F) := by omega
      have k2 : ¬(0xC0 + c / 64 ≤ 0xC1) := by omega
      have k3 : 0xC0 + c / 64 ≤ 0xDF := by omega
      have k4 : 0x80 ≤ 0x80 + c % 64 := by omega
      have k5 : 0x80 + c % 64 ≤ 0xBF := by omega
      simp [utf8EncodeChar, hA, hB, decodeAux, utf8Start, utf8Cont, idleU8,
        k1, k2, k3, k4, k5]
      omega
    · by_cases hC : c ≤ 0xFFFF
      · have k1 : ¬(0xE0 + c / 4096 ≤ 0x7F) := by omega
        have k2 : ¬(0xE0 + c / 4096 ≤ 0xC1) := by omega
        have k3 : ¬(0xE0 + c / 4096 ≤ 0xDF) := by omega
        have k4 : 0xE0 + c / 4096 ≤ 0xEF := by omega
        have k7 : 0x80 ≤ 0x80 + c % 64 := by omega
        have k8 : 0x80 + c % 64 ≤ 0xBF := by omega
        rcases Nat.lt_or_ge c 0x1000 with hE0 | hge3
        · have e1 : 0xE0 + c / 4096 = 0xE0 := by omega
          have k9 : 0xA0 ≤ 0x80 + c / 64 % 64 := by omega
          have k10 : 0x80 + c / 64 % 64 ≤ 0xBF := by omega
          simp [utf8EncodeChar, hA, hB, hC, decodeAux, utf8Start, utf8Cont,
            idleU8, k1, k2, k3, k4, e1, k9, k10, k7, k8]
          omega
        · by_cases hED : 0xD000 ≤ c ∧ c < 0xE000
          · have e1 : 0xE0 + c / 4096 = 0xED := by omega
            have k9 : 0x80 ≤ 0x80 + c / 64 % 64 := by omega
            have k10 : 0x80 + c / 64 % 64 ≤ 0x9F := by omega
            simp [utf8EncodeChar, hA, hB, hC, decodeAux, utf8Start, utf8Cont,
              idleU8, k1, k2, k3, k4, e1, k9, k10, k7, k8]
            omega
          · have hne1 : ¬(0xE0 + c / 4096 = 0xE0) := by omega
            have hne2 : ¬(0xE0 + c / 4096 = 0xED) := by omega
            have k9 : 0x80 ≤ 0x80 + c / 64 % 64 := by omega
            have k10 : 0x80 + c / 64 % 64 ≤ 0xBF := by omega
            simp [utf8EncodeChar, hA, hB, hC, decodeAux, utf8Start, utf8Cont,
              idleU8, k1, k2, k3, k4, hne1, hne2, k9, k10, k7, k8]
            omega
      · have k1 : ¬(0xF0 + c / 262144 ≤ 0x7F) := by omega
        have k2 : ¬(0xF0 + c / 262144 ≤ 0xC1) := by omega
        have k3 : ¬(0xF0 + c / 262144 ≤ 0xDF) := by omega
        have k4 : ¬(0xF0 + c / 262144 ≤ 0xEF) := by omega
        have k5 : 0xF0 + c / 262144 ≤ 0xF4 := by omega
        have k6 : 0x80 ≤ 0x80 + c / 64 % 64 := by omega
        have k6b : 0x80 + c / 64 % 64 ≤ 0xBF := by omega
        have k7 : 0x80 ≤ 0x80 + c % 64 := by omega
        have k8 : 0x80 + c % 64 ≤ 0xBF := by omega
        rcases Nat.lt_or_ge c 0x40000 with hF0 | hge4
        · have e1 : 0xF0 + c / 262144 = 0xF0 := by omega
          have k9 : 0x90 ≤ 0x80 + c / 4096 % 64 := by omega
          have k10 : 0x80 + c / 4096 % 64 ≤ 0xBF := by omega
          simp [utf8EncodeChar, hA, hB, hC, decodeAux, utf8Start, utf8Cont,
            idleU8, k1, k2, k3, k4, k5, e1, k9, k10, k6, k6b, k7, k8]
          omega
        · by_cases hF4 : 0x100000 ≤ c
          · have e1 : 0xF0 + c / 262144 = 0xF4 := by omega
            have k9 : 0x80 ≤ 0x80 + c / 4096 % 64 := by omega
            have k10 : 0x80 + c / 4096 % 64 ≤ 0x8F := by omega
            simp [utf8EncodeChar, hA, hB, hC, decodeAux, utf8Start, utf8Cont,
              idleU8, k1, k2, k3, k4, k5, e1, k9, k10, k6, k6b, k7, k8]
            omega
          · have hne1 : ¬(0xF0 + c / 262144 = 0xF0) := by omega
            have hne2 : ¬(0xF0 + c / 262144 = 0xF4) := by omega
            have k9 : 0x80 ≤ 0x80 + c / 4096 % 64 := by omega
            have k10 : 0x80 + c / 4096 % 64 ≤ 0xBF := by omega
            simp [utf8EncodeChar, hA, hB, hC, decodeAux, utf8Start, utf8Cont,
              idleU8, k1, k2, k3, k4, k5, hne1, hne2, k9, k10, k6, k6b, k7, k8]
            omega

/-- Decoding inverts encoding on every sequence of valid Unicode scalars. -/
theorem decode_encode (cps : List Nat) (h : ∀ c ∈ cps, ValidScalar c) :
    decodeUtf8Replace (utf8Encode cps) = cps := by
  induction cps with
  | nil => rfl
  | cons c t ih =>
    have hc : ValidScalar c := h c (List.mem_cons_self c t)
    have ht : ∀ x ∈ t, ValidScalar x := fun x hx => h x (List.mem_cons_of_mem c hx)
    unfold decodeUtf8Replace
    simp only [utf8Encode, List.map_cons, List.flatten_cons]
    rw [decodeAux_encodeChar c hc]
    have ih2 := ih ht
    unfold decodeUtf8Replace utf8Encode at ih2
    rw [ih2]

/-! ## The need guards prevent every out-of-bounds read -/

/-- The explicitly-checked parser computes exactly what the source parser
computes: every checked read is preceded by a need guard that already
established the bound, so the oobRead branch is dead code. -/
theorem deserializeChecked_eq (blob : List Nat) :
    deserializeChecked blob = deserializeBlob blob := by
  unfold deserializeChecked deserializeBlob readBytesChk readU32Chk
  by_cases g1 : 0 + 16 > blob.length
  · simp [g1]
  have c1 : 0 + 16 ≤ blob.length := by omega
  by_cases g2 : 16 + 12 > blob.length
  · simp [g1, c1, g2]
  have c2 : 16 + 12 ≤ blob.length := by omega
  by_cases g3 : 28 + 16 > blob.length
  · simp [g1, c1, g2, c2, g3]
  have c3 : 28 + 16 ≤ blob.length := by omega
  by_cases g4 : 44 + 4 > blob.length
  · simp [g1, c1, g2, c2, g3, c3, g4]
  have c4 : 44 + 4 ≤ blob.length := by omega
  by_cases g5 : 48 + readUInt32LE blob 44 > blob.length
  · simp [g1, c1, g2, c2, g3, c3, g4, c4, g5]
  have c5 : 48 + readUInt32LE blob 44 ≤ blob.length := by omega
  by_cases g6 : 48 + readUInt32LE blob 44 + 4 > blob.length
  · simp [g1, c1, g2, c2, g3, c3, g4, c4, g5, c5, g6]
  have c6 : 48 + readUInt32LE blob 44 + 4 ≤ blob.length := by omega
  by_cases g7 : 52 + readUInt32LE blob 44 +
      readUInt32LE blob (48 + readUInt32LE blob 44) > blob.length
  · simp [g1, c1, g2, c2, g3, c3, g4, c4, g5, c5, g6, c6, g7]
  have c7 : 52 + readUInt32LE blob 44 +
      readUInt32LE blob (48 + readUInt32LE blob 44) ≤ blob.length := by omega
  simp [g1, c1, g2, c2, g3, c3, g4, c4, g5, c5, g6, c6, g7, c7]

/-- The source parser itself never reports an out-of-bounds read: its only
failures are the truncated-header and missing-ciphertext errors. -/
theorem deserialize_no_oob (blob : List Nat) :
    deserializeBlob blob ≠ Except.error DErr.oobRead := by
  simp only [deserializeBlob]
  split_ifs <;> intro h <;> first
    | exact DErr.noConfusion (Except.error.inj h)
    | exact Except.noConfusion h

/-- Even with every byte access checked, the parser never performs an
out-of-bounds read on any input. -/
theorem deserializeChecked_no_oob (blob : List Nat) :
    deserializeChecked blob ≠ Except.error DErr.oobRead := by
  rw [deserializeChecked_eq]
  exact deserialize_no_oob blob

/-! ## Supporting characterisation of decryption failure -/

/-- Decryption fails with the single authentication error exactly when the
tag recomputed under the re-derived key differs from the stored tag; there
is no other failure, and no detail distinguishes its causes. -/
theorem decryptBuffer_fails_iff (A : AEAD)
    (scrypt : List Nat → List Nat → List Nat) (payload : EncPayload)
    (secret : List Nat) :
    decryptBuffer A scrypt payload secret = Except.error CryptoErr.authFailed ↔
      A.tagOf (deriveKey scrypt secret payload.salt) payload.iv payload.ciphertext ≠
        payload.authTag := by
  simp only [decryptBuffer]
  split_ifs with h
  · simp [h]
  · simp [h]

/-! ## Concrete sample values used by witnesses and counterexamples -/

/-- Sample payload with well-formed field sizes and one ciphertext byte. -/
def encSample : EncPayload :=
  ⟨[3], List.replicate 12 1, List.replicate 16 2, List.replicate 16 0⟩

/-- Sample payload with empty ciphertext (the empty-plaintext boundary). -/
def encEmptyCt : EncPayload :=
  ⟨[], List.replicate 12 0, List.replicate 16 0, List.replicate 16 0⟩

/-- Sample payload with two ciphertext bytes, for truncation experiments. -/
def encShort : EncPayload :=
  ⟨[9, 10], List.replicate 12 0, List.replicate 16 0, List.replicate 16 0⟩

/-- Serialised form of encShort with empty name and one-byte mime. -/
def blobShort : List Nat := serializeBlob encShort [] [97]

/-- A laid-out blob whose parse succeeds, for evaluating theorems with a
parse hypothesis. -/
def sampleBlob : List Nat :=
  blobLayoutSpec (List.replicate 16 0) (List.replicate 12 1) (List.replicate 16 2)
    [97] [98] [3]

/-- Payload with a 1-byte nonce and an empty salt: sizes the specification
says must be rejected. -/
def badPayload : EncPayload := ⟨[1], [0], List.replicate 16 0, []⟩

/-! ## C3 -/

/-- C3: the parser checks the remaining length against each field size
before reading the field, so even with every byte access instrumented the
parser computes exactly what the source computes and never performs an
out-of-bounds read; and the scenario blob declaring nameLen 1000 with only
5 bytes remaining fails with the truncated error. -/
theorem bounds_checked_parsing :
    (∀ blob : List Nat, deserializeChecked blob = deserializeBlob blob ∧
      deserializeChecked blob ≠ Except.error DErr.oobRead) ∧
    deserializeChecked (List.replicate 44 0 ++ (le4spec 1000 ++ [1, 2, 3, 4, 5])) =
      Except.error DErr.truncated := by
  refine ⟨fun blob => ⟨deserializeChecked_eq blob, deserializeChecked_no_oob blob⟩, ?_⟩
  decide

/-! ## C4 -/

/-- C4: serialisation produces exactly the concatenation salt(16), nonce(12),
authTag(16), nameLen(4, little-endian), name, mimeLen(4, little-endian),
mime, ciphertext, in that order with those widths: the output equals the
wire layout written from the words of the specification, and each field sits
at its specified offset.  The mime bytes are the UTF-8 encoding of the given
media type, with the empty media type replaced by application/octet-stream
as on line 64 of the source. -/
theorem serialize_wire_layout (enc : EncPayload) (name mime : List Nat)
    (h1 : enc.salt.length = 16) (h2 : enc.iv.length = 12)
    (h3 : enc.authTag.length = 16)
    (hnb : (utf8Encode name).length < 4294967296)
    (hmb : (utf8Encode (if mime = [] then defaultMime else mime)).length < 4294967296) :
    serializeBlob enc name mime =
      blobLayoutSpec enc.salt enc.iv enc.authTag (utf8Encode name)
        (utf8Encode (if mime = [] then defaultMime else mime)) enc.ciphertext ∧
    sub (serializeBlob enc name mime) 0 16 = enc.salt ∧
    sub (serializeBlob enc name mime) 16 12 = enc.iv ∧
    sub (serializeBlob enc name mime) 28 16 = enc.authTag ∧
    readUInt32LE (serializeBlob enc name mime) 44 = (utf8Encode name).length ∧
    sub (serializeBlob enc name mime) 48 (utf8Encode name).length = utf8Encode name ∧
    readUInt32LE (serializeBlob enc name mime) (48 + (utf8Encode name).length) =
      (utf8Encode (if mime = [] then defaultMime else mime)).length ∧
    sub (serializeBlob enc name mime) (52 + (utf8Encode name).length)
        (utf8Encode (if mime = [] then defaultMime else mime)).length =
      utf8Encode (if mime = [] then defaultMime else mime) ∧
    (serializeBlob enc name mime).drop
        (52 + (utf8Encode name).length +
          (utf8Encode (if mime = [] then defaultMime else mime)).length) =
      enc.ciphertext := by
  rw [serialize_eq_layout]
  exact ⟨rfl,
    layout_salt _ _ _ _ _ _ h1,
    layout_iv _ _ _ _ _ _ h1 h2,
    layout_tag _ _ _ _ _ _ h1 h2 h3,
    layout_nameLen _ _ _ _ _ _ h1 h2 h3 hnb,
    layout_name _ _ _ _ _ _ h1 h2 h3,
    layout_mimeLen _ _ _ _ _ _ h1 h2 h3 hmb,
    layout_mime _ _ _ _ _ _ h1 h2 h3,
    layout_ct _ _ _ _ _ _ h1 h2 h3⟩

/-- C4 witness: the layout equality evaluated on a concrete payload,
filename and media type. -/
theorem serialize_wire_layout_witness :
    serializeBlob encSample [104] [97] =
      blobLayoutSpec (List.replicate 16 0) (List.replicate 12 1)
        (List.replicate 16 2) (utf8Encode [104]) (utf8Encode [97]) [3] :=
  (serialize_wire_layout encSample [104] [97] (by decide) (by decide) (by decide)
    (by decide) (by decide)).1

/-! ## C5 -/

/-- Every byte of the default media type is a valid scalar. -/
theorem defaultMime_valid : ∀ c ∈ defaultMime, ValidScalar c := by decide

/-- C5 counterexample: with an empty ciphertext (the serialised form of an
empty plaintext) the framing round trip does not return the original
values; it fails with the missing-ciphertext error, refuting the claim as
stated for this input. -/
theorem framing_roundtrip_cex :
    deserializeBlob (serializeBlob encEmptyCt [] [97]) =
      Except.error DErr.missingCiphertext := by
  decide

/-- C5 amended: for well-formed material, metadata of valid Unicode scalars
with encodings below 2^32 bytes, and a NON-EMPTY ciphertext, deserialising
the serialised blob returns the original salt, nonce, authTag, filename and
ciphertext; the media type comes back unchanged when non-empty, and an
empty media type comes back as application/octet-stream. -/
theorem framing_roundtrip (enc : EncPayload) (name mime : List Nat)
    (h1 : enc.salt.length = 16) (h2 : enc.iv.length = 12)
    (h3 : enc.authTag.length = 16)
    (hname : ∀ c ∈ name, ValidScalar c) (hmime : ∀ c ∈ mime, ValidScalar c)
    (hnb : (utf8Encode name).length < 4294967296)
    (hmb : (utf8Encode (if mime = [] then defaultMime else mime)).length < 4294967296)
    (hct : enc.ciphertext ≠ []) :
    deserializeBlob (serializeBlob enc name mime) =
      Except.ok ⟨enc.salt, enc.iv, enc.authTag, name,
        (if mime = [] then defaultMime else mime), enc.ciphertext⟩ := by
  have hm : ∀ c ∈ (if mime = [] then defaultMime else mime), ValidScalar c := by
    by_cases h : mime = []
    · simp only [if_pos h]; exact defaultMime_valid
    · simp only [if_neg h]; exact hmime
  rw [serialize_eq_layout, deserialize_layout _ _ _ _ _ _ h1 h2 h3 hnb hmb hct,
    decode_encode name hname, decode_encode _ hm]

/-- C5 witness: the amended round trip evaluated on a concrete payload,
filename and media type. -/
theorem framing_roundtrip_witness :
    deserializeBlob (serializeBlob encSample [104] [97]) =
      Except.ok ⟨List.replicate 16 0, List.replicate 12 1, List.replicate 16 2,
        [104], [97], [3]⟩ :=
  framing_roundtrip encSample [104] [97] (by decide) (by decide) (by decide)
    (by decide) (by decide) (by decide) (by decide) (by decide)

/-! ## C7 -/

/-- C7 counterexample: a blob whose filename bytes are the invalid UTF-8
sequence 0xFF parses successfully with the replacement character U+FFFD
substituted; deserialisation does not fail with any metadata error. -/
theorem metadata_cex :
    deserializeBlob (blobLayoutSpec (List.replicate 16 0) (List.replicate 12 0)
        (List.replicate 16 0) [255] [97] [1]) =
      Except.ok ⟨List.replicate 16 0, List.replicate 12 0, List.replicate 16 0,
        [65533], [97], [1]⟩ := by
  decide

/-- C7 amended: metadata decoding is total.  For every blob in wire layout,
whatever bytes sit in the filename and media-type regions, deserialisation
succeeds (given the structural conditions) and returns those regions run
through the replacement decoder, which maps invalid sequences to U+FFFD and
never fails; no metadata-decoding failure exists in the parser. -/
theorem metadata_decode_total (s iv t nb mb ct : List Nat)
    (h1 : s.length = 16) (h2 : iv.length = 12) (h3 : t.length = 16)
    (hnb : nb.length < 4294967296) (hmb : mb.length < 4294967296)
    (hct : ct ≠ []) :
    deserializeBlob (blobLayoutSpec s iv t nb mb ct) =
      Except.ok ⟨s, iv, t, decodeUtf8Replace nb, decodeUtf8Replace mb, ct⟩ :=
  deserialize_layout s iv t nb mb ct h1 h2 h3 hnb hmb hct

/-- C7 witness: the amended statement evaluated on a blob holding invalid
UTF-8 in its filename region. -/
theorem metadata_decode_total_witness :
    deserializeBlob (blobLayoutSpec (List.replicate 16 5) (List.replicate 12 6)
        (List.replicate 16 7) [255, 97] [98] [2]) =
      Except.ok ⟨List.replicate 16 5, List.replicate 12 6, List.replicate 16 7,
        [65533, 97], [98], [2]⟩ :=
  metadata_decode_total (List.replicate 16 5) (List.replicate 12 6)
    (List.replicate 16 7) [255, 97] [98] [2]
    (by decide) (by decide) (by decide) (by decide) (by decide) (by decide)

/-! ## C6 -/

/-- Truncating a laid-out blob beyond the metadata region truncates only the
ciphertext. -/
theorem layout_take_ct (s iv t nb mb ct : List Nat) (k : Nat)
    (h1 : s.length = 16) (h2 : iv.length = 12) (h3 : t.length = 16)
    (hk : 52 + nb.length + mb.length ≤ k) :
    (blobLayoutSpec s iv t nb mb ct).take k =
      blobLayoutSpec s iv t nb mb (ct.take (k - (52 + nb.length + mb.length))) := by
  have hL : blobLayoutSpec s iv t nb mb ct =
      ((((((s ++ iv) ++ t) ++ le4spec nb.length) ++ nb) ++ le4spec mb.length) ++ mb) ++
        ct := by
    simp [blobLayoutSpec, List.append_assoc]
  have hL2 : blobLayoutSpec s iv t nb mb (ct.take (k - (52 + nb.length + mb.length))) =
      ((((((s ++ iv) ++ t) ++ le4spec nb.length) ++ nb) ++ le4spec mb.length) ++ mb) ++
        ct.take (k - (52 + nb.length + mb.length)) := by
    simp [blobLayoutSpec, List.append_assoc]
  have hplen : (((((((s ++ iv) ++ t) ++ le4spec nb.length) ++ nb) ++
      le4spec mb.length) ++ mb)).length = 52 + nb.length + mb.length := by
    simp [h1, h2, h3, le4spec, List.length_append]
    omega
  rw [hL, hL2, List.take_append_eq_append_take, hplen,
    List.take_of_length_le (by omega)]

/-- C6 counterexample: blobShort is a valid 55-byte blob with a 2-byte
ciphertext; its proper 54-byte truncation does not fail with the truncated
error, it parses successfully with the last ciphertext byte dropped,
refuting the claim as stated. -/
theorem truncation_cex :
    deserializeBlob (List.take 54 blobShort) =
      Except.ok ⟨List.replicate 16 0, List.replicate 12 0, List.replicate 16 0,
        [], [97], [9]⟩ ∧
    54 < blobShort.length ∧
    deserializeBlob (List.take 54 blobShort) ≠ Except.error DErr.truncated := by
  refine ⟨by decide, by decide, ?_⟩
  decide

/-- C6 amended: truncating a valid blob strictly inside the header and
metadata region (the first 52 plus name plus mime bytes) always fails with
the truncated error and never crashes; truncating exactly at the end of the
metadata fails with the missing-ciphertext error; truncating inside the
ciphertext region is not detected by the parser, which returns the
shortened ciphertext (only tag verification can catch it later). -/
theorem truncation_amended (enc : EncPayload) (name mime : List Nat)
    (h1 : enc.salt.length = 16) (h2 : enc.iv.length = 12)
    (h3 : enc.authTag.length = 16)
    (hname : ∀ c ∈ name, ValidScalar c) (hmime : ∀ c ∈ mime, ValidScalar c)
    (hnb : (utf8Encode name).length < 4294967296)
    (hmb : (utf8Encode (if mime = [] then defaultMime else mime)).length < 4294967296)
    (hct : enc.ciphertext ≠ []) :
    (∀ k, k < 52 + (utf8Encode name).length +
        (utf8Encode (if mime = [] then defaultMime else mime)).length →
      deserializeBlob ((serializeBlob enc name mime).take k) =
        Except.error DErr.truncated) ∧
    deserializeBlob ((serializeBlob enc name mime).take
        (52 + (utf8Encode name).length +
          (utf8Encode (if mime = [] then defaultMime else mime)).length)) =
      Except.error DErr.missingCiphertext ∧
    (∀ k, 52 + (utf8Encode name).length +
        (utf8Encode (if mime = [] then defaultMime else mime)).length < k →
      deserializeBlob ((serializeBlob enc name mime).take k) =
        Except.ok ⟨enc.salt, enc.iv, enc.authTag, name,
          (if mime = [] then defaultMime else mime),
          enc.ciphertext.take (k - (52 + (utf8Encode name).length +
            (utf8Encode (if mime = [] then defaultMime else mime)).length))⟩) := by
  have hm : ∀ c ∈ (if mime = [] then defaultMime else mime), ValidScalar c := by
    by_cases h : mime = []
    · simp only [if_pos h]; exact defaultMime_valid
    · simp only [if_neg h]; exact hmime
  have hctpos : 0 < enc.ciphertext.length := List.length_pos.mpr hct
  refine ⟨?_, ?_, ?_⟩
  · intro k hklt
    rw [serialize_eq_layout,
      deserialize_take_le _ _ _ _ _ _ h1 h2 h3 hnb hmb hct k (by omega),
      if_pos hklt]
  · rw [serialize_eq_layout,
      deserialize_take_le _ _ _ _ _ _ h1 h2 h3 hnb hmb hct _ (by omega)]
    simp
  · intro k hkgt
    rw [serialize_eq_layout, layout_take_ct _ _ _ _ _ _ k h1 h2 h3 (by omega)]
    have hne : enc.ciphertext.take (k - (52 + (utf8Encode name).length +
        (utf8Encode (if mime = [] then defaultMime else mime)).length)) ≠ [] := by
      intro hnil
      have hlen := congrArg List.length hnil
      simp only [List.length_take, List.length_nil] at hlen
      omega
    rw [deserialize_layout _ _ _ _ _ _ h1 h2 h3 hnb hmb hne,
      decode_encode name hname, decode_encode _ hm]

/-- C6 witness: the amended statement evaluated at a concrete blob and the
concrete cut point 10, inside the fixed header as in the specification
scenario. -/
theorem truncation_amended_witness :
    deserializeBlob ((serializeBlob encShort [] [97]).take 10) =
      Except.error DErr.truncated :=
  (truncation_amended encShort [] [97] (by decide) (by decide) (by decide)
    (by decide) (by decide) (by decide) (by decide) (by decide)).1 10 (by decide)

/-! ## C8 -/

/-- C8 counterexample: decryptBuffer accepts a 1-byte nonce and an empty
salt without any input-validation failure: the call proceeds and succeeds
(under the degenerate cipher instantiation), so no InvalidInputError path
exists in the code. -/
theorem decrypt_no_size_validation :
    decryptBuffer zeroAEAD zeroKdf badPayload [5] = Except.ok [1] := by
  decide

/-- C8 amended: the repository performs no size validation inside
decryptBuffer; instead the field sizes are structural guarantees of the
parser: every successfully deserialised blob supplies a salt of exactly 16
bytes, a nonce of exactly 12 bytes and an authTag of exactly 16 bytes to
decryption. -/
theorem deserialize_field_sizes (blob : List Nat) (r : ParsedBlob)
    (h : deserializeBlob blob = Except.ok r) :
    r.salt.length = 16 ∧ r.iv.length = 12 ∧ r.authTag.length = 16 := by
  simp only [deserializeBlob] at h
  split_ifs at h with g1 g2 g3 g4 g5 g6 g7 g8
  injection h with h2
  subst h2
  refine ⟨?_, ?_, ?_⟩ <;>
    simp only [sub, List.length_take, List.length_drop] <;> omega

/-- C8 witness: the amended statement evaluated on a concrete blob that
parses successfully. -/
theorem deserialize_field_sizes_witness :
    (List.replicate 16 0 : List Nat).length = 16 ∧
    (List.replicate 12 1 : List Nat).length = 12 ∧
    (List.replicate 16 2 : List Nat).length = 16 :=
  deserialize_field_sizes sampleBlob
    ⟨List.replicate 16 0, List.replicate 12 1, List.replicate 16 2, [97], [98], [3]⟩
    (by decide)

/-! ## C9 -/

/-- C9 counterexample: after one successful encrypt with passphrase
hunter2, the frontend has written that passphrase into localStorage (key
lastSecret), persistent storage that survives the call, refuting the claim
that the passphrase is never written to any persistent storage. -/
theorem passphrase_stored_cex :
    storeGet (encryptSuccessStorage [] "abc.bin" "hunter2") "lastSecret" =
      some "hunter2" := by
  decide

/-- C9 amended: the server never persists the passphrase (the stored blob
is built only from the encryption payload and metadata), but the client
does: on every successful encrypt the frontend stores the passphrase it
used under the localStorage key lastSecret, whatever was stored before. -/
theorem passphrase_stored_client (store : List (String × String))
    (id secret : String) :
    storeGet (encryptSuccessStorage store id secret) "lastSecret" = some secret := by
  simp [encryptSuccessStorage, storeSet, storeGet]

/-! ## C10 -/

/-- C10: encrypting a zero-length plaintext succeeds and produces a
zero-length ciphertext (ciphertext length always equals plaintext length,
for any plaintext), so the serialised blob of an empty file is header and
metadata only, and deserialising that blob fails with the
missing-ciphertext error: empty files can be encrypted and stored but can
never be recovered through deserialisation. -/
theorem empty_plaintext_behaviour (A : AEAD)
    (scrypt : List Nat → List Nat → List Nat)
    (secret salt iv name mime : List Nat)
    (hsalt : salt.length = 16) (hiv : iv.length = 12)
    (hnb : (utf8Encode name).length < 4294967296)
    (hmb : (utf8Encode (if mime = [] then defaultMime else mime)).length < 4294967296) :
    (encryptBuffer A scrypt [] secret salt iv).ciphertext = [] ∧
    (∀ p : List Nat,
      (encryptBuffer A scrypt p secret salt iv).ciphertext.length = p.length) ∧
    deserializeBlob (serializeBlob (encryptBuffer A scrypt [] secret salt iv) name mime) =
      Except.error DErr.missingCiphertext := by
  refine ⟨rfl, fun p => encryptBuffer_length A scrypt p secret salt iv, ?_⟩
  rw [serialize_eq_layout]
  exact deserialize_layout_empty salt iv
    (A.tagOf (deriveKey scrypt secret salt) iv []) (utf8Encode name)
    (utf8Encode (if mime = [] then defaultMime else mime))
    hsalt hiv (A.tagOf_length _ _ _) hnb hmb

/-- C10 witness: the empty-plaintext behaviour evaluated under the
degenerate cipher instantiation with concrete metadata. -/
theorem empty_plaintext_behaviour_witness :
    (encryptBuffer zeroAEAD zeroKdf [] [7] (List.replicate 16 0)
      (List.replicate 12 0)).ciphertext = [] ∧
    (∀ p : List Nat,
      (encryptBuffer zeroAEAD zeroKdf p [7] (List.replicate 16 0)
        (List.replicate 12 0)).ciphertext.length = p.length) ∧
    deserializeBlob (serializeBlob (encryptBuffer zeroAEAD zeroKdf [] [7]
        (List.replicate 16 0) (List.replicate 12 0)) [104] [97]) =
      Except.error DErr.missingCiphertext :=
  empty_plaintext_behaviour zeroAEAD zeroKdf [7] (List.replicate 16 0)
    (List.replicate 12 0) [104] [97] (by simp) (by simp) (by decide) (by decide)
